import Mathlib

/-!
# A shallow embedding of `hfst_altlab/__init__.py`

This file models the weighted-lookup and cross-validation orchestration layer
of the `hfst-altlab` package. The hfst engine itself (file parsing, state
machine traversal, diacritic classification) is an out-of-scope collaborator
and is modelled abstractly: a transducer handle is a function from an input
string and a cutoff to a list of weighted symbol sequences, together with the
flags the loading code inspects. Engine weights are modelled as rationals.
All Python-level control flow of the wrapped layer (loading, filtering,
standardization, bulk lookup, distance-based ranking) is translated directly
from the source.
-/

namespace HfstAltlab

/-- Abstract model of the global `hfst` engine module: the only global the
wrapped layer consults per call is `hfst.is_diacritic`. -/
structure HfstEngine where
  is_diacritic : String → Bool

/-- Abstract model of one loaded engine transducer handle, as consumed by the
wrapper: `lookup(input, time_cutoff, output="raw")` is a function from the
input string and the cutoff to a list of (weight, symbol-sequence) pairs;
`is_infinitely_ambiguous` and the optimized-type test are the two flags the
loading code inspects. -/
structure HfstTransducer where
  lookup : String → Nat → List (ℚ × List String)
  is_infinitely_ambiguous : Bool
  is_optimized_type : Bool

/-- Model of `transducer.lookup_optimize()`: converts the representation to
the optimized lookup form without changing lookup semantics. -/
def HfstTransducer.lookup_optimize (t : HfstTransducer) : HfstTransducer :=
  { t with is_optimized_type := true }

/-- Modelled from the spec: the `AnalysisCodec` helpers `as_fst_input` and
`fst_output_format` live in the repository's `types.py`, which is not among
the sources; per spec §4.2 they are string serializers, kept abstract here. -/
structure Codec where
  as_fst_input : String → String
  fst_output_format : List String → String

/-- Modelled from the spec (§3) and the constructor call
`FullAnalysis(float(weight), tokens, generate(tokens))` in the source:
a `FullAnalysis` carries the weight, the raw token sequence of the
transduction, and the optional standardized surface string. The class body
lives in the repository's `types.py`, which is not among the sources. -/
structure FullAnalysis where
  weight : ℚ
  tokens : List String
  standardized : Option String
deriving DecidableEq, Repr

/-- Modelled from the spec: the `flag_diacritics` accessor of `FullAnalysis`
(used at `lookup_symbols`, source line 97) returns the raw token sequence of
the transduction, diacritics still included — `lookup_symbols` filters it. -/
def FullAnalysis.flag_diacritics (a : FullAnalysis) : List String :=
  a.tokens

/-- Modelled from the spec (§3): a weighted surface string candidate. -/
structure Wordform where
  weight : ℚ
  symbols : List String
deriving DecidableEq, Repr

/-! ## Loading (`TransducerFile.__init__`) -/

/-- The three relevant outcomes of opening and reading the backing file,
as delivered by the engine collaborator: the path does not exist
(`Path(filename).exists()` is false), `hfst.HfstInputStream` raises
`NotTransducerStreamException`, or the stream parses and `read_all()`
returns a list of transducers. -/
inductive FileContents where
  | missing
  | notTransducerStream
  | stream (transducers : List HfstTransducer)

/-- The exceptions `TransducerFile.__init__` can raise, with the message
each one carries. `MultipleTransducersError` models the `ValueError` whose
note explains the single-transducer expectation;
`InfinitelyAmbiguousWarning` models the raised `RuntimeWarning`. -/
inductive LoadError where
  | FileNotFoundError (msg : String)
  | NotTransducerStreamException (msg : String)
  | MultipleTransducersError (note : String)
  | InfinitelyAmbiguousWarning (msg : String)
deriving DecidableEq, Repr

/-- A successfully constructed `TransducerFile`: the stored cutoff and the
single extracted transducer. -/
structure TransducerFile where
  cutoff : Nat
  transducer : HfstTransducer

/-- The outcome of `TransducerFile.__init__`, instrumented with the lifecycle
of the `HfstInputStream`: whether a stream was successfully opened, and
whether `stream.close()` ran afterwards. -/
structure InitOutcome where
  result : Except LoadError TransducerFile
  stream_opened : Bool
  stream_closed : Bool

/-- Translation of `TransducerFile.__init__(filename, search_cutoff)`:
missing path raises `FileNotFoundError`; an unparseable stream re-raises
`NotTransducerStreamException` with args rewritten to
"wrong or corrupt file?"; a stream with other than exactly one transducer is
closed and a `ValueError` noted "We expected a single transducer to arise in
the file." is raised; otherwise the stream is closed, the single transducer
stored, a raised `RuntimeWarning` aborts construction if it is infinitely
ambiguous, and it is optimized in place when not already of an optimized
lookup type. -/
def TransducerFile.init (filename : String) (file : FileContents)
    (search_cutoff : Nat) : InitOutcome :=
  match file with
  | .missing =>
      { result := .error (.FileNotFoundError
          ("Transducer not found: ‘" ++ filename ++ "’")),
        stream_opened := false, stream_closed := false }
  | .notTransducerStream =>
      { result := .error (.NotTransducerStreamException "wrong or corrupt file?"),
        stream_opened := false, stream_closed := false }
  | .stream [t] =>
      if t.is_infinitely_ambiguous then
        { result := .error (.InfinitelyAmbiguousWarning
            "The transducer is infinitely ambiguous."),
          stream_opened := true, stream_closed := true }
      else
        { result := .ok
            { cutoff := search_cutoff,
              transducer := if t.is_optimized_type then t else t.lookup_optimize },
          stream_opened := true, stream_closed := true }
  | .stream _ =>
      { result := .error (.MultipleTransducersError
          "We expected a single transducer to arise in the file."),
        stream_opened := true, stream_closed := true }

/-! ## Lookup operations -/

/-- Translation of `TransducerFile._weighted_lookup`: delegates to the
engine transducer's raw lookup with the stored cutoff. -/
def TransducerFile.weighted_lookup (t : TransducerFile) (input : String) :
    List (ℚ × List String) :=
  t.transducer.lookup input t.cutoff

/-- Python truthiness of an optional string: `None` and the empty string are
falsy, every other string is truthy. -/
def pyTruthyStr : Option String → Bool
  | none => false
  | some s => s ≠ ""

/-- The loop body of the `generate` closure inside
`weighted_lookup_full_analysis`: running value of `entry`, then for each
(weight, output) pair, `candidate = "".join(output)`; `if entry and
entry != candidate: return None` else `entry = candidate`; finally `return
entry`. -/
def generateLoop (entry : Option String) :
    List (ℚ × List String) → Option String
  | [] => entry
  | (_, output) :: rest =>
      let candidate := String.join output
      if pyTruthyStr entry ∧ entry ≠ some candidate then none
      else generateLoop (some candidate) rest

/-- The `generate` closure of `weighted_lookup_full_analysis` when a
generator is supplied: run the generator's weighted lookup on the re-encoded
tokens and fold the results with `generateLoop`. -/
def generate (generator : TransducerFile) (codec : Codec)
    (tokens : List String) : Option String :=
  generateLoop none (generator.weighted_lookup (codec.fst_output_format tokens))

/-- Translation of `TransducerFile.weighted_lookup_full_analysis`: one
`FullAnalysis` per (weight, tokens) pair of the weighted lookup, in engine
order, with `standardized` computed by the `generate` closure when a
generator is supplied and `None` otherwise. -/
def TransducerFile.weighted_lookup_full_analysis (codec : Codec)
    (t : TransducerFile) (wordform : String)
    (generator : Option TransducerFile) : List FullAnalysis :=
  (t.weighted_lookup (codec.as_fst_input wordform)).map fun wt =>
    { weight := wt.1, tokens := wt.2,
      standardized :=
        match generator with
        | some g => generate g codec wt.2
        | none => none }

/-- The symbol filter applied by `lookup_symbols`
(`[x for x in analysis.flag_diacritics if x and not hfst.is_diacritic(x)]`):
drops empty tokens and tokens the engine classifies as flag diacritics,
keeping the remaining order. -/
def symbolFilter (hfst : HfstEngine) (xs : List String) : List String :=
  xs.filter fun x => decide (x ≠ "") && ! hfst.is_diacritic x

/-- Translation of `TransducerFile.lookup_symbols`: the symbol filter applied
to each analysis' raw token sequence, one list per transduction. -/
def TransducerFile.lookup_symbols (hfst : HfstEngine) (codec : Codec)
    (t : TransducerFile) (input : String) : List (List String) :=
  (t.weighted_lookup_full_analysis codec input none).map fun analysis =>
    symbolFilter hfst analysis.flag_diacritics

/-- Translation of `TransducerFile.lookup`: concatenates each transduction
of `lookup_symbols` into one flat string. -/
def TransducerFile.lookup (hfst : HfstEngine) (codec : Codec)
    (t : TransducerFile) (input : String) : List String :=
  (t.lookup_symbols hfst codec input).map fun transduction =>
    String.join transduction

/-- Translation of `TransducerFile.weighted_lookup_full_wordform`: wraps each
weighted transduction as a `Wordform`, no decoding. -/
def TransducerFile.weighted_lookup_full_wordform (codec : Codec)
    (t : TransducerFile) (analysis : String) : List Wordform :=
  (t.weighted_lookup (codec.as_fst_input analysis)).map fun wt =>
    { weight := wt.1, symbols := wt.2 }

/-! ## `bulk_lookup` and the Python dict/set model -/

/-- Insertion into a Python dict modelled as an ordered association list:
an existing key keeps its position and gets the new value, a new key is
appended at the end. -/
def dictInsert (d : List (String × Finset String)) (k : String)
    (v : Finset String) : List (String × Finset String) :=
  if d.any fun p => p.1 = k then
    d.map fun p => if p.1 = k then (k, v) else p
  else d ++ [(k, v)]

/-- Translation of `TransducerFile.bulk_lookup`: the dict comprehension
`{word: set(self.lookup(word)) for word in words}` — each word of the input,
in order, mapped to the deduplicated set of its lookup outputs. -/
def TransducerFile.bulk_lookup (hfst : HfstEngine) (codec : Codec)
    (t : TransducerFile) (words : List String) :
    List (String × Finset String) :=
  words.foldl (fun d word => dictInsert d word (t.lookup hfst codec word).toFinset) []

/-! ## `TransducerPair` -/

structure TransducerPair where
  analyser : TransducerFile
  generator : TransducerFile

/-- Translation of `TransducerPair.__init__`: both member transducers are
constructed with the one `search_cutoff` argument. Each argument is a
filename together with the engine's outcome of opening it. -/
def TransducerPair.init (analyser generator : String × FileContents)
    (search_cutoff : Nat) : Except LoadError TransducerPair := do
  let a ← (TransducerFile.init analyser.1 analyser.2 search_cutoff).result
  let g ← (TransducerFile.init generator.1 generator.2 search_cutoff).result
  return { analyser := a, generator := g }

/-- The sort key of `TransducerPair.analyse`: distance from the source string
to the candidate's standardized form, `+Infinity` (the top element) when
`standardized` is absent. -/
def analyseKey (distance : String → String → ℚ) (source : String)
    (other : FullAnalysis) : WithTop ℚ :=
  match other.standardized with
  | none => ⊤
  | some s => (distance source s : WithTop ℚ)

/-- The comparison `list.sort(key=...)` effectively sorts by: ascending
`analyseKey`. -/
def analyseLe (distance : String → String → ℚ) (source : String)
    (a b : FullAnalysis) : Bool :=
  decide (analyseKey distance source a ≤ analyseKey distance source b)

/-- Translation of `TransducerPair.analyse`: a full analysis of the input by
the analyser with the pair's generator supplied for standardization; when a
distance function is given, the candidates are sorted (Python's stable
`list.sort`, modelled by `List.mergeSort`) ascending by `analyseKey`. -/
def TransducerPair.analyse (codec : Codec) (p : TransducerPair)
    (input : String) (distance : Option (String → String → ℚ)) :
    List FullAnalysis :=
  let candidate :=
    p.analyser.weighted_lookup_full_analysis codec input (some p.generator)
  match distance with
  | none => candidate
  | some d => candidate.mergeSort (analyseLe d input)

/-- Translation of `TransducerFile.symbol_count`: size of the engine's
alphabet. The alphabet itself is engine state; modelled as a field would be
unused by the claims, so the operation is parameterized by it directly. -/
def symbol_count (alphabet : List String) : Nat :=
  alphabet.length

/-! ## Concrete instances used to evaluate the model -/

/-- An engine that classifies no symbol as a diacritic. -/
def trivEngine : HfstEngine :=
  { is_diacritic := fun _ => false }

/-- A codec whose serializers are the identity-like concatenations. -/
def codec0 : Codec :=
  { as_fst_input := fun s => s, fst_output_format := fun xs => String.join xs }

/-- A generator transducer that returns, for every input, two transductions
whose output symbol sequences concatenate to the distinct surface strings
`""` and `"x"`. -/
def genBad : TransducerFile :=
  { cutoff := 60,
    transducer :=
      { lookup := fun _ _ => [(0, []), (0, ["x"])],
        is_infinitely_ambiguous := false, is_optimized_type := true } }

/-- An analyser transducer producing one candidate with token list `["a"]`. -/
def ana : TransducerFile :=
  { cutoff := 60,
    transducer :=
      { lookup := fun _ _ => [(0, ["a"])],
        is_infinitely_ambiguous := false, is_optimized_type := true } }

/-- An infinitely ambiguous transducer (as reported by the engine). -/
def ambT : HfstTransducer :=
  { lookup := fun _ _ => [], is_infinitely_ambiguous := true,
    is_optimized_type := true }

/-- A plain well-behaved transducer: finite ambiguity, optimized type. -/
def plainT : HfstTransducer :=
  { lookup := fun _ _ => [], is_infinitely_ambiguous := false,
    is_optimized_type := true }

end HfstAltlab

namespace HfstAltlab

/-! ## Theorems -/

/-- C8: the symbol filter is idempotent — applying it twice to any symbol
sequence yields the same sequence as applying it once. -/
theorem C8_symbolFilter_idempotent (hfst : HfstEngine) (xs : List String) :
    symbolFilter hfst (symbolFilter hfst xs) = symbolFilter hfst xs := by
  simp [symbolFilter, List.filter_filter]

/-- C9: when `weighted_lookup_full_analysis` is called without a generator
(as `lookup`, `lookup_symbols` and `lookup_lemma_with_affixes` do), every
`FullAnalysis` in the returned list has its `standardized` field absent. -/
theorem C9_no_generator_no_standardized (codec : Codec) (t : TransducerFile)
    (input : String) :
    ((t.weighted_lookup_full_analysis codec input none).all
      fun a => a.standardized.isNone) = true := by
  simp [TransducerFile.weighted_lookup_full_analysis, List.all_eq_true]
  rintro x w s - rfl
  rfl

/-- C5: `lookup` returns one flat string per weighted transduction returned
by the engine, in engine-return order, each the concatenation of that
transduction's filtered symbols; duplicates are kept (the result is a map
over the engine's list, so its length equals the engine's). -/
theorem C5_lookup_concatenates_filtered_symbols (hfst : HfstEngine)
    (codec : Codec) (t : TransducerFile) (input : String) :
    t.lookup hfst codec input
      = (t.weighted_lookup (codec.as_fst_input input)).map
          (fun wt => String.join (symbolFilter hfst wt.2))
    ∧ (t.lookup hfst codec input).length
      = (t.weighted_lookup (codec.as_fst_input input)).length := by
  constructor
  · simp [TransducerFile.lookup, TransducerFile.lookup_symbols,
      TransducerFile.weighted_lookup_full_analysis, FullAnalysis.flag_diacritics,
      List.map_map]
  · simp [TransducerFile.lookup, TransducerFile.lookup_symbols,
      TransducerFile.weighted_lookup_full_analysis]

/-- C1: code bug at a concrete input — a generator whose weighted lookup
returns the two distinct surface strings `""` and `"x"` for the one analysis
candidate nevertheless yields `standardized = some "x"` (the loop treats an
empty-string `entry` as unset, Python truthiness), where the unanimity
policy demands absence. -/
theorem C1_distinct_surface_strings_still_standardize :
    (genBad.weighted_lookup (codec0.fst_output_format ["a"])).map
        (fun wt => String.join wt.2) = ["", "x"]
    ∧ ("" : String) ≠ "x"
    ∧ (ana.weighted_lookup_full_analysis codec0 "a" (some genBad)).map
        (fun a => a.standardized) = [some "x"] :=
  ⟨rfl, by decide, rfl⟩

/-- C2 counterexample: loading an infinitely ambiguous transducer does not
complete construction — the raised `RuntimeWarning` aborts the load and no
usable handle is produced. -/
theorem C2_counterexample_load_aborts :
    (TransducerFile.init "ambiguous.hfstol" (.stream [ambT]) 60).result
      = .error (.InfinitelyAmbiguousWarning
          "The transducer is infinitely ambiguous.")
    ∧ ∀ tf : TransducerFile,
        (TransducerFile.init "ambiguous.hfstol" (.stream [ambT]) 60).result
          ≠ .ok tf := by
  refine ⟨rfl, ?_⟩
  intro tf h
  simp [TransducerFile.init, ambT] at h

/-- C2 (amended): when the single loaded transducer reports infinite
ambiguity, a warning-class exception (`RuntimeWarning`) is raised:
construction aborts with that signal rather than completing. -/
theorem C2_infinite_ambiguity_raises (filename : String) (t : HfstTransducer)
    (cutoff : Nat) (h : t.is_infinitely_ambiguous = true) :
    (TransducerFile.init filename (.stream [t]) cutoff).result
      = .error (.InfinitelyAmbiguousWarning
          "The transducer is infinitely ambiguous.") := by
  simp [TransducerFile.init, h]

/-- C2 witness: the amended statement at the concrete ambiguous transducer. -/
theorem C2_witness :
    (TransducerFile.init "amb.hfstol" (.stream [ambT]) 60).result
      = .error (.InfinitelyAmbiguousWarning
          "The transducer is infinitely ambiguous.") :=
  C2_infinite_ambiguity_raises "amb.hfstol" ambT 60 rfl

/-- C4: the load-error taxonomy — a missing path gives `FileNotFoundError`,
an unparseable stream gives the exception with message exactly
"wrong or corrupt file?", a stream with other than exactly one transducer
gives the multiple-transducers error, and a single finitely ambiguous
transducer loads successfully into a handle. -/
theorem C4_load_error_taxonomy (filename : String) (cutoff : Nat) :
    (TransducerFile.init filename .missing cutoff).result
      = .error (.FileNotFoundError
          ("Transducer not found: ‘" ++ filename ++ "’"))
    ∧ (TransducerFile.init filename .notTransducerStream cutoff).result
      = .error (.NotTransducerStreamException "wrong or corrupt file?")
    ∧ (∀ ts : List HfstTransducer, ts.length ≠ 1 →
        (TransducerFile.init filename (.stream ts) cutoff).result
          = .error (.MultipleTransducersError
              "We expected a single transducer to arise in the file."))
    ∧ ∀ t : HfstTransducer, t.is_infinitely_ambiguous = false →
        ∃ tf : TransducerFile,
          (TransducerFile.init filename (.stream [t]) cutoff).result
            = .ok tf := by
  refine ⟨rfl, rfl, ?_, ?_⟩
  · intro ts h
    match ts with
    | [] => rfl
    | [t] => exact absurd rfl h
    | a :: b :: rest => rfl
  · intro t h
    exact ⟨{ cutoff := cutoff,
             transducer := if t.is_optimized_type then t else t.lookup_optimize },
           by simp [TransducerFile.init, h]⟩

/-- C7: the input stream is closed on every exit path on which it was
opened — in particular on the multiple-transducers error path and on the
success path; and on every parsed stream the stream is indeed opened. -/
theorem C7_stream_closed_when_opened (filename : String) (file : FileContents)
    (cutoff : Nat) (ts : List HfstTransducer) :
    (TransducerFile.init filename file cutoff).stream_closed
      = (TransducerFile.init filename file cutoff).stream_opened
    ∧ (TransducerFile.init filename (.stream ts) cutoff).stream_opened
      = true := by
  constructor
  · cases file with
    | missing => rfl
    | notTransducerStream => rfl
    | stream ts' =>
      match ts' with
      | [] => rfl
      | [t] => simp only [TransducerFile.init]; split <;> rfl
      | a :: b :: rest => rfl
  · match ts with
    | [] => rfl
    | [t] => simp only [TransducerFile.init]; split <;> rfl
    | a :: b :: rest => rfl

/-- On any successful construction, the stored cutoff is the `search_cutoff`
argument. -/
theorem init_ok_cutoff {filename : String} {file : FileContents} {c : Nat}
    {tf : TransducerFile}
    (h : (TransducerFile.init filename file c).result = .ok tf) :
    tf.cutoff = c := by
  match file with
  | .missing => simp [TransducerFile.init] at h
  | .notTransducerStream => simp [TransducerFile.init] at h
  | .stream [] => simp [TransducerFile.init] at h
  | .stream [t] =>
    by_cases ha : t.is_infinitely_ambiguous
    · simp [TransducerFile.init, ha] at h
    · simp [TransducerFile.init, ha] at h
      rw [← h]
  | .stream (a :: b :: rest) => simp [TransducerFile.init] at h

/-- C10: a `TransducerPair` constructed with a given `search_cutoff` assigns
that same single value as the cutoff of both the analyser and the generator
transducer. -/
theorem C10_pair_cutoffs_equal (analyser generator : String × FileContents)
    (search_cutoff : Nat) (p : TransducerPair)
    (h : TransducerPair.init analyser generator search_cutoff = .ok p) :
    p.analyser.cutoff = search_cutoff ∧ p.generator.cutoff = search_cutoff := by
  unfold TransducerPair.init at h
  cases ha : (TransducerFile.init analyser.1 analyser.2 search_cutoff).result with
  | error e =>
    rw [ha] at h
    simp [Bind.bind, Except.bind] at h
  | ok a =>
    cases hg : (TransducerFile.init generator.1 generator.2 search_cutoff).result with
    | error e =>
      rw [ha, hg] at h
      simp [Bind.bind, Except.bind] at h
    | ok g =>
      rw [ha, hg] at h
      simp only [Bind.bind, Except.bind, pure, Except.pure, Except.ok.injEq] at h
      rw [← h]
      exact ⟨init_ok_cutoff ha, init_ok_cutoff hg⟩

/-- C10 witness: both cutoffs of a concretely constructed pair equal the one
argument 60. -/
theorem C10_witness :
    ({ analyser := { cutoff := 60, transducer := plainT },
       generator := { cutoff := 60, transducer := plainT } }
        : TransducerPair).analyser.cutoff = 60
    ∧ ({ analyser := { cutoff := 60, transducer := plainT },
         generator := { cutoff := 60, transducer := plainT } }
        : TransducerPair).generator.cutoff = 60 :=
  C10_pair_cutoffs_equal ("a.hfstol", .stream [plainT])
    ("g.hfstol", .stream [plainT]) 60
    { analyser := { cutoff := 60, transducer := plainT },
      generator := { cutoff := 60, transducer := plainT } } rfl

/-- Keys of a dict after insertion: an existing key leaves the key list
unchanged, a new key is appended. -/
theorem dictInsert_keys (d : List (String × Finset String)) (k : String)
    (v : Finset String) :
    (dictInsert d k v).map Prod.fst
      = if k ∈ d.map Prod.fst then d.map Prod.fst
        else d.map Prod.fst ++ [k] := by
  unfold dictInsert
  have hany : (d.any fun p => decide (p.1 = k)) = true ↔ k ∈ d.map Prod.fst := by
    rw [List.any_eq_true]
    constructor
    · rintro ⟨p, hp, hpk⟩
      rw [decide_eq_true_eq] at hpk
      exact List.mem_map.mpr ⟨p, hp, hpk⟩
    · intro hk
      rcases List.mem_map.mp hk with ⟨p, hp, hpk⟩
      exact ⟨p, hp, by rw [decide_eq_true_eq]; exact hpk⟩
  by_cases h : k ∈ d.map Prod.fst
  · rw [if_pos (hany.mpr h), if_pos h, List.map_map]
    refine List.map_congr_left ?_
    intro p _
    by_cases hp : p.1 = k
    · simp [hp]
    · simp [hp]
  · rw [if_neg (fun hh => h (hany.mp hh)), if_neg h]
    simp

/-- Inserted entries keep the value-function invariant. -/
theorem dictInsert_entries {d : List (String × Finset String)}
    {f : String → Finset String} {k : String}
    (hd : ∀ p ∈ d, p.2 = f p.1) :
    ∀ p ∈ dictInsert d k (f k), p.2 = f p.1 := by
  unfold dictInsert
  split
  · intro p hp
    rcases List.mem_map.mp hp with ⟨q, hq, rfl⟩
    by_cases hqk : q.1 = k
    · simp [hqk]
    · simpa [hqk] using hd q hq
  · intro p hp
    rcases List.mem_append.mp hp with hp | hp
    · exact hd p hp
    · rcases List.mem_singleton.mp hp with rfl
      rfl

/-- Insertion keeps the key list duplicate-free. -/
theorem dictInsert_keys_nodup {d : List (String × Finset String)}
    (hn : (d.map Prod.fst).Nodup) (k : String) (v : Finset String) :
    ((dictInsert d k v).map Prod.fst).Nodup := by
  rw [dictInsert_keys]
  by_cases h : k ∈ d.map Prod.fst
  · simpa [h] using hn
  · rw [if_neg h, List.nodup_append]
    refine ⟨hn, List.nodup_singleton k, ?_⟩
    intro a ha hak
    rw [List.mem_singleton] at hak
    subst hak
    exact h ha

/-- Key membership after insertion. -/
theorem dictInsert_mem_keys (d : List (String × Finset String)) (k : String)
    (v : Finset String) (q : String) :
    q ∈ (dictInsert d k v).map Prod.fst
      ↔ q ∈ d.map Prod.fst ∨ q = k := by
  rw [dictInsert_keys]
  by_cases h : k ∈ d.map Prod.fst
  · rw [if_pos h]
    constructor
    · exact Or.inl
    · rintro (hq | rfl)
      · exact hq
      · exact h
  · rw [if_neg h]
    simp

/-- The invariant of the `bulk_lookup` fold: duplicate-free keys, key set
equal to the processed inputs, and every entry's value produced by `f`. -/
theorem bulk_fold_invariant (f : String → Finset String) :
    ∀ (words : List String) (d : List (String × Finset String)),
      (d.map Prod.fst).Nodup → (∀ p ∈ d, p.2 = f p.1) →
      (((words.foldl (fun d w => dictInsert d w (f w)) d).map Prod.fst).Nodup
      ∧ (∀ k, k ∈ (words.foldl (fun d w => dictInsert d w (f w)) d).map Prod.fst
          ↔ k ∈ d.map Prod.fst ∨ k ∈ words)
      ∧ ∀ p ∈ words.foldl (fun d w => dictInsert d w (f w)) d, p.2 = f p.1)
  | [], d, hn, he => ⟨hn, fun k => by simp, he⟩
  | w :: ws, d, hn, he => by
    have IH := bulk_fold_invariant f ws (dictInsert d w (f w))
      (dictInsert_keys_nodup hn w (f w)) (dictInsert_entries he)
    rw [List.foldl_cons]
    refine ⟨IH.1, ?_, IH.2.2⟩
    intro k
    rw [IH.2.1 k, dictInsert_mem_keys]
    simp [List.mem_cons]
    tauto

/-- C6: `bulk_lookup` returns a mapping with exactly one entry per distinct
input (duplicate-free key list whose members are exactly the inputs), and
each entry's value is the deduplicated set of that input's lookup outputs. -/
theorem C6_bulk_lookup_set_semantics (hfst : HfstEngine) (codec : Codec)
    (t : TransducerFile) (words : List String) :
    ((t.bulk_lookup hfst codec words).map Prod.fst).Nodup
    ∧ (∀ k, k ∈ (t.bulk_lookup hfst codec words).map Prod.fst ↔ k ∈ words)
    ∧ ∀ p ∈ t.bulk_lookup hfst codec words,
        p.2 = (t.lookup hfst codec p.1).toFinset := by
  have h := bulk_fold_invariant (fun w => (t.lookup hfst codec w).toFinset)
    words [] (by simp) (by simp)
  exact ⟨h.1, fun k => (h.2.1 k).trans (by simp), h.2.2⟩

/-- The sort key is the top element exactly when `standardized` is absent. -/
theorem analyseKey_eq_top_iff (d : String → String → ℚ) (source : String)
    (a : FullAnalysis) :
    analyseKey d source a = ⊤ ↔ a.standardized = none := by
  cases h : a.standardized <;> simp [analyseKey, h]

/-- The comparison used by `analyse` is transitive. -/
theorem analyseLe_trans (d : String → String → ℚ) (source : String) :
    ∀ a b c, analyseLe d source a b = true → analyseLe d source b c = true →
      analyseLe d source a c = true := by
  intro a b c hab hbc
  simp only [analyseLe, decide_eq_true_eq] at hab hbc ⊢
  exact le_trans hab hbc

/-- The comparison used by `analyse` is total. -/
theorem analyseLe_total (d : String → String → ℚ) (source : String) :
    ∀ a b, (analyseLe d source a b || analyseLe d source b a) = true := by
  intro a b
  rcases le_total (analyseKey d source a) (analyseKey d source b) with h | h
  · rw [Bool.or_eq_true]
    exact Or.inl (by simpa only [analyseLe, decide_eq_true_eq] using h)
  · rw [Bool.or_eq_true]
    exact Or.inr (by simpa only [analyseLe, decide_eq_true_eq] using h)

/-- With a distance function, `analyse` is the merge sort of the candidate
list under `analyseLe`. -/
theorem analyse_some_eq (codec : Codec) (p : TransducerPair) (input : String)
    (d : String → String → ℚ) :
    TransducerPair.analyse codec p input (some d)
      = (p.analyser.weighted_lookup_full_analysis codec input
          (some p.generator)).mergeSort (analyseLe d input) := rfl

/-- The merge sort under `analyseLe` of any candidate list: a permutation of
the input, sorted ascending by key, stable (equal-key candidates keep their
relative order), with absent-standardized candidates after all others. -/
theorem mergeSort_analyseLe_spec (d : String → String → ℚ) (source : String)
    (cand : List FullAnalysis) :
    (cand.mergeSort (analyseLe d source)).Perm cand
    ∧ (cand.mergeSort (analyseLe d source)).Pairwise
        (fun a b => analyseKey d source a ≤ analyseKey d source b)
    ∧ (∀ k : WithTop ℚ,
        (cand.mergeSort (analyseLe d source)).filter
            (fun a => decide (analyseKey d source a = k))
          = cand.filter (fun a => decide (analyseKey d source a = k)))
    ∧ (cand.mergeSort (analyseLe d source)).Pairwise
        (fun a b => a.standardized = none → b.standardized = none) := by
  have htrans := analyseLe_trans d source
  have htotal := analyseLe_total d source
  refine ⟨List.mergeSort_perm cand _, ?_, ?_, ?_⟩
  · exact (List.sorted_mergeSort htrans htotal cand).imp
      fun h => by simpa only [analyseLe, decide_eq_true_eq] using h
  · intro k
    have hsubl : (cand.filter fun a => decide (analyseKey d source a = k)).Sublist
        cand := List.filter_sublist cand
    have hpw : (cand.filter fun a => decide (analyseKey d source a = k)).Pairwise
        (fun a b => analyseLe d source a b = true) := by
      refine List.pairwise_of_forall_mem_list ?_
      intro a ha b hb
      have hak := (List.mem_filter.mp ha).2
      have hbk := (List.mem_filter.mp hb).2
      rw [decide_eq_true_eq] at hak hbk
      simp only [analyseLe, decide_eq_true_eq]
      rw [hak, hbk]
    have hstab := List.sublist_mergeSort htrans htotal hpw hsubl
    have hperm := (List.mergeSort_perm cand (analyseLe d source)).filter
      (fun a => decide (analyseKey d source a = k))
    have hfeq : ((cand.filter fun a => decide (analyseKey d source a = k)).filter
          fun a => decide (analyseKey d source a = k))
        = cand.filter fun a => decide (analyseKey d source a = k) := by
      rw [List.filter_eq_self]
      intro a ha
      exact (List.mem_filter.mp ha).2
    have hsub2 := hfeq ▸ (hstab.filter fun a => decide (analyseKey d source a = k))
    exact (hsub2.eq_of_length hperm.length_eq.symm).symm
  · refine (List.sorted_mergeSort htrans htotal cand).imp ?_
    intro a b hab hnone
    have hle : analyseKey d source a ≤ analyseKey d source b := by
      simpa only [analyseLe, decide_eq_true_eq] using hab
    rw [(analyseKey_eq_top_iff d source a).mpr hnone] at hle
    exact (analyseKey_eq_top_iff d source b).mp (top_le_iff.mp hle)

/-- C3: with a distance function, `analyse` returns the full-analysis
candidate list re-sorted ascending by `analyseKey` (distance to the
standardized form, top when absent): the result is a permutation of the
candidates, sorted by the key, equal-key candidates keep their prior
relative order (stable sort), and every absent-standardized candidate comes
after all candidates with a standardized value. -/
theorem C3_analyse_distance_stable_sort (codec : Codec) (p : TransducerPair)
    (input : String) (d : String → String → ℚ) :
    (TransducerPair.analyse codec p input (some d)).Perm
        (p.analyser.weighted_lookup_full_analysis codec input (some p.generator))
    ∧ (TransducerPair.analyse codec p input (some d)).Pairwise
        (fun a b => analyseKey d input a ≤ analyseKey d input b)
    ∧ (∀ k : WithTop ℚ,
        (TransducerPair.analyse codec p input (some d)).filter
            (fun a => decide (analyseKey d input a = k))
          = (p.analyser.weighted_lookup_full_analysis codec input
              (some p.generator)).filter
              (fun a => decide (analyseKey d input a = k)))
    ∧ (TransducerPair.analyse codec p input (some d)).Pairwise
        (fun a b => a.standardized = none → b.standardized = none) := by
  rw [analyse_some_eq]
  exact mergeSort_analyseLe_spec d input _

end HfstAltlab
